import Mathlib

/-!
Shallow embedding of the Swift syntax analyzer found in
src/ios-master-skills/tools/swift_syntax_analyzer.py.

Source text is modelled as a list of characters; character offsets, line
numbers and the regular-expression scans of the analyzer are made explicit
and executable.  Each definition mirrors one function or one pattern of the
Python source.
-/

set_option autoImplicit false
set_option maxRecDepth 4000

/-- Whitespace character class of the scanning patterns, on ASCII text. -/
def isSpaceC (c : Char) : Bool :=
  c == ' ' || c == '\t' || c == '\n' || c == '\r' || c == '\x0b' || c == '\x0c'

/-- Word character class of the scanning patterns, on ASCII identifiers. -/
def isWordC (c : Char) : Bool :=
  c.isAlphanum || c == '_'

/-- Literal t occurs in s at offset i. -/
def litAt (s t : List Char) (i : Nat) : Bool :=
  t.isPrefixOf (s.drop i)

/-- Number of consecutive characters of s from offset i satisfying p. -/
def countWhile (p : Char → Bool) (s : List Char) (i : Nat) : Nat :=
  ((s.drop i).takeWhile p).length

/-- 1-based line number of offset i: newline characters strictly before the
offset, plus one. -/
def lineNum (s : List Char) (i : Nat) : Nat :=
  (s.take i).countP (fun c => c == '\n') + 1

/-- Worker for finditer: from position pos, with explicit fuel, collect
(start, end, payload) for each successive leftmost match, resuming after each
match at its end (or one past its start for an empty match). -/
def finditerGo {α : Type} (f : Nat → Option (Nat × α)) : Nat → Nat → List (Nat × Nat × α)
  | 0, _ => []
  | fuel + 1, pos =>
    match f pos with
    | some ea => (pos, ea.1, ea.2) :: finditerGo f fuel (if pos < ea.1 then ea.1 else pos + 1)
    | none => finditerGo f fuel (pos + 1)

/-- Exhaustive non-overlapping forward scan of a whole text of the given
length, one entry per match, in match order. -/
def finditer {α : Type} (f : Nat → Option (Nat × α)) (len : Nat) : List (Nat × Nat × α) :=
  finditerGo f (len + 1) 0

/-- First offset at which t occurs in l starting the count at n, or none;
mirrors the substring search of the in operator and str.index. -/
def subIdx (t : List Char) : List Char → Nat → Option Nat
  | [], n => if t.isPrefixOf ([] : List Char) then some n else none
  | c :: rest, n => if t.isPrefixOf (c :: rest) then some n else subIdx t rest (n + 1)

/-- Substring containment test. -/
def containsSub (t l : List Char) : Bool :=
  (subIdx t l 0).isSome

/-- Offset of the first character of the line containing offset i; mirrors
searching backwards for a newline before i and adding one. -/
def lineStart (s : List Char) (i : Nat) : Nat :=
  i - ((s.take i).reverse.takeWhile (fun c => c != '\n')).length

/-- Offset of the newline ending the line containing offset i, or the text
length when the final line is unterminated. -/
def lineEnd (s : List Char) (i : Nat) : Nat :=
  i + countWhile (fun c => c != '\n') s i

/-- Pattern literals of the analyzer, one per scanned spelling. -/
def frameWidthLit : List Char := ".frame(width:".toList

def frameHeightLit : List Char := ".frame(height:".toList

def fontSizeLit : List Char := ".font(.system(size:".toList

def colorRedLit : List Char := "Color(red:".toList

def colorSRGBLit : List Char := "Color(.sRGB,".toList

def redColonLit : List Char := "red:".toList

def colorHueLit : List Char := "Color(hue:".toList

def uiColorRedLit : List Char := "UIColor(red:".toList

def buttonLit : List Char := "Button(".toList

def tryLit : List Char := "try".toList

def classLit : List Char := "class".toList

def viewModelLit : List Char := "ViewModel".toList

def enumLit : List Char := "enum".toList

def stateLit : List Char := "State".toList

def widthColonLit : List Char := "width:".toList

def heightColonLit : List Char := "height:".toList

def frameOpenLit : List Char := ".frame(".toList

def slashSlashLit : List Char := "//".toList

def imageOpenLit : List Char := "Image(".toList

def accLabelLit : List Char := ".accessibilityLabel".toList

/-- Matcher for a pattern of shape: literal t, then optional whitespace, then
one or more digits captured as a group, then a closing parenthesis.  Returns
the end offset and the captured digit characters.  Embeds the frame-size and
font-size patterns of the analyzer. -/
def matchSizedAt (t : List Char) (s : List Char) (i : Nat) : Option (Nat × List Char) :=
  if litAt s t i then
    let p := i + t.length
    let k := countWhile isSpaceC s p
    let d := countWhile Char.isDigit s (p + k)
    if 0 < d && s.get? (p + k + d) == some ')' then
      some (p + k + d + 1, (s.drop (p + k)).take d)
    else none
  else none

/-- Matcher for: literal t, then optional whitespace, then one or more
digit-or-dot characters; embeds the RGB and HSB colour constructor patterns. -/
def matchColorNum (t : List Char) (s : List Char) (i : Nat) : Option (Nat × Unit) :=
  if litAt s t i then
    let p := i + t.length
    let k := countWhile isSpaceC s p
    let d := countWhile (fun c => c.isDigit || c == '.') s (p + k)
    if 0 < d then some (p + k + d, ()) else none
  else none

/-- Matcher for the sRGB colour constructor spelling. -/
def matchColorSRGB (s : List Char) (i : Nat) : Option (Nat × Unit) :=
  if litAt s colorSRGBLit i then
    let p := i + colorSRGBLit.length
    let k := countWhile isSpaceC s p
    if litAt s redColonLit (p + k) then some (p + k + 4, ()) else none
  else none

/-- Matcher for the force-unwrap pattern: an exclamation mark whose three
preceding characters are not the forced-try keyword, followed by optional
whitespace whose following character is not an equals sign; the whitespace is
consumed greedily subject to that condition. -/
def matchForce (s : List Char) (i : Nat) : Option (Nat × Unit) :=
  if s.get? i == some '!' && !(decide (3 ≤ i) && litAt s tryLit (i - 3)) then
    let w := countWhile isSpaceC s (i + 1)
    if s.get? (i + 1 + w) == some '=' then
      if 0 < w then some (i + w, ()) else none
    else some (i + 1 + w, ())
  else none

/-- Comment suppression of the force-unwrap check: the match at offset i is
dropped when a line-comment marker occurs on the same line strictly earlier
than the match offset. -/
def suppressedByCmnt (s : List Char) (i : Nat) : Bool :=
  let ls := lineStart s i
  let ln := (s.drop ls).take (lineEnd s i - ls)
  match subIdx slashSlashLit ln 0 with
  | none => false
  | some j => decide (j < i - ls)

/-- Lazy scan: try the continuation k at offsets i, i plus one, and so on in
order, moving past a character only when it satisfies the class cls; the
first success wins.  Embeds a non-greedy star of a character class followed
by the rest of a pattern, with backtracking. -/
def lazyScan {α : Type} (cls : Char → Bool) (k : Nat → Option α) (s : List Char) :
    Nat → Nat → Option α
  | _, 0 => none
  | i, fuel + 1 =>
    match k i with
    | some r => some r
    | none =>
      match s.get? i with
      | some c => if cls c then lazyScan cls k s (i + 1) fuel else none
      | none => none

/-- Matcher embedding the touch-target pattern: the Button literal, lazily
matched arguments on one line up to a closing parenthesis, optional
whitespace, an opening brace, a lazily matched segment up to a closing brace,
any text up to a frame directive, then width or height with a colon, optional
whitespace and a captured integer followed by a closing parenthesis. -/
def matchTouch (s : List Char) (i : Nat) : Option (Nat × List Char) :=
  if litAt s buttonLit i then
    lazyScan (fun c => c != '\n')
      (fun j =>
        if s.get? j == some ')' then
          let k := countWhile isSpaceC s (j + 1)
          if s.get? (j + 1 + k) == some '\x7b' then
            lazyScan (fun _ => true)
              (fun m =>
                if s.get? m == some '\x7d' then
                  lazyScan (fun _ => true)
                    (fun n =>
                      if litAt s frameOpenLit n then
                        lazyScan (fun c => c != '\n')
                          (fun q =>
                            let r :=
                              if litAt s widthColonLit q then some (q + 6)
                              else if litAt s heightColonLit q then some (q + 7)
                              else none
                            match r with
                            | some r =>
                              let k2 := countWhile isSpaceC s r
                              let d := countWhile Char.isDigit s (r + k2)
                              if 0 < d && s.get? (r + k2 + d) == some ')' then
                                some (r + k2 + d + 1, (s.drop (r + k2)).take d)
                              else none
                            | none => none)
                          s (n + 7) (s.length + 1)
                      else none)
                    s (m + 1) (s.length + 1)
                else none)
              s (j + 1 + k + 1) (s.length + 1)
          else none
        else none)
      s (i + 7) (s.length + 1)
  else none

/-- Numeric value of a captured digit group. -/
def digitsToNat (ds : List Char) : Nat :=
  ds.foldl (fun acc c => acc * 10 + (c.toNat - 48)) 0

/-- One reported violation: severity, stable rule identifier, message, and an
optional 1-based line number. -/
structure Violation where
  severity : String
  rule : String
  message : String
  line : Option Nat
  deriving DecidableEq

/-- Severity literals: the only two severities the analyzer ever assigns. -/
def errorSev : String := "error"

def warningSev : String := "warning"

/-- Message fragments, matching the Python format strings verbatim. -/
def frameWidthDesc : String := "Hardcoded frame width"

def frameHeightDesc : String := "Hardcoded frame height"

def frameMsgTail : String := "pt. Consider using minWidth/minHeight or semantic tokens."

def colorMsg : String :=
  "Hardcoded RGB/HSB color. Use semantic colors (e.g., .primary, .systemBackground) or Asset Catalog colors."

def fontMsgHead : String := "Hardcoded font size: "

def fontMsgTail : String :=
  "pt. Use semantic text styles (e.g., .body, .headline) for Dynamic Type support."

def forceMsg : String :=
  "Force unwrapping (!) can cause crashes. Use optional binding (if let, guard let) or nil coalescing (??) instead."

def touchMsgHead : String := "Touch target size is "

def touchMsgTail : String :=
  "pt, which is below the minimum 44pt. Use .frame(minWidth: 44, minHeight: 44) or add .contentShape(Rectangle())."

def vmMsg : String :=
  "ViewModel should expose a State enum (e.g., idle, loading, content, error) for state management."

def accMsg : String :=
  "Image-only button should have .accessibilityLabel() for VoiceOver support."

/-- Violation built by the hardcoded frame size check for one match. -/
def frameViol (s : List Char) (desc : String) (m : Nat × Nat × List Char) : Violation :=
  { severity := warningSev, rule := "hardcoded_frame_size",
    message := desc ++ ": " ++ String.mk m.2.2 ++ frameMsgTail,
    line := some (lineNum s m.1) }

/-- Rule check for hardcoded frame sizes: the width pattern scan followed by
the height pattern scan, their violations concatenated. -/
def checkHardcodedFrameSizes (s : List Char) : List Violation :=
  (finditer (matchSizedAt frameWidthLit s) s.length).map
      (fun m => frameViol s frameWidthDesc m) ++
    (finditer (matchSizedAt frameHeightLit s) s.length).map
      (fun m => frameViol s frameHeightDesc m)

/-- Violation built by the hardcoded colour check for one match. -/
def colorViol (s : List Char) (i : Nat) : Violation :=
  { severity := warningSev, rule := "hardcoded_color", message := colorMsg,
    line := some (lineNum s i) }

/-- Rule check for hardcoded colours: four sub-pattern scans in fixed order,
their violations concatenated. -/
def checkHardcodedColors (s : List Char) : List Violation :=
  (finditer (matchColorNum colorRedLit s) s.length).map (fun m => colorViol s m.1) ++
    (finditer (matchColorSRGB s) s.length).map (fun m => colorViol s m.1) ++
    (finditer (matchColorNum colorHueLit s) s.length).map (fun m => colorViol s m.1) ++
    (finditer (matchColorNum uiColorRedLit s) s.length).map (fun m => colorViol s m.1)

/-- Violation built by the hardcoded font size check for one match. -/
def fontViol (s : List Char) (m : Nat × Nat × List Char) : Violation :=
  { severity := warningSev, rule := "hardcoded_font_size",
    message := fontMsgHead ++ String.mk m.2.2 ++ fontMsgTail,
    line := some (lineNum s m.1) }

/-- Rule check for hardcoded font sizes. -/
def checkHardcodedFonts (s : List Char) : List Violation :=
  (finditer (matchSizedAt fontSizeLit s) s.length).map (fun m => fontViol s m)

/-- Violation built by the force-unwrap check for one match. -/
def forceViol (s : List Char) (i : Nat) : Violation :=
  { severity := errorSev, rule := "force_unwrapping", message := forceMsg,
    line := some (lineNum s i) }

/-- Matches of the force-unwrap pattern over a whole text. -/
def forceMatches (s : List Char) : List (Nat × Nat × Unit) :=
  finditer (matchForce s) s.length

/-- Rule check for force unwrapping, with comment suppression. -/
def checkForceUnwrapping (s : List Char) : List Violation :=
  (forceMatches s).filterMap (fun m =>
    if suppressedByCmnt s m.1 then none else some (forceViol s m.1))

/-- Violation built by the touch-target check for one match below threshold. -/
def touchViol (s : List Char) (i : Nat) (size : Nat) : Violation :=
  { severity := errorSev, rule := "touch_target_too_small",
    message := touchMsgHead ++ toString size ++ touchMsgTail,
    line := some (lineNum s i) }

/-- Matches of the touch-target pattern over a whole text. -/
def touchMatches (s : List Char) : List (Nat × Nat × List Char) :=
  finditer (matchTouch s) s.length

/-- Rule check for touch-target sizes: one error per match whose captured
integer is below 44. -/
def checkTouchTargetSizes (s : List Char) : List Violation :=
  (touchMatches s).filterMap (fun m =>
    let sz := digitsToNat m.2.2
    if sz < 44 then some (touchViol s m.1 sz) else none)

/-- Search embedding the view-model class pattern: the class literal, at
least one whitespace character, then at least one word character followed by
the ViewModel literal, within one maximal word-character run. -/
def matchVMClass (s : List Char) (i : Nat) : Bool :=
  litAt s classLit i &&
    (let k := countWhile isSpaceC s (i + 5)
     let p := i + 5 + k
     let w := countWhile isWordC s p
     0 < k && (List.range' 1 w).any (fun j => litAt s viewModelLit (p + j)))

/-- The text contains a view-model class declaration somewhere. -/
def hasViewModelClass (s : List Char) : Bool :=
  (List.range (s.length + 1)).any (fun i => matchVMClass s i)

/-- Search embedding the state enum pattern: the enum literal, at least one
whitespace character, the State literal, optional whitespace, then an opening
brace. -/
def matchStateEnum (s : List Char) (i : Nat) : Bool :=
  litAt s enumLit i &&
    (let k := countWhile isSpaceC s (i + 4)
     let p := i + 4 + k
     0 < k && litAt s stateLit p &&
       (let k2 := countWhile isSpaceC s (p + 5)
        s.get? (p + 5 + k2) == some '\x7b'))

/-- The text contains a State enum declaration somewhere. -/
def hasStateEnum (s : List Char) : Bool :=
  (List.range (s.length + 1)).any (fun i => matchStateEnum s i)

/-- The single file-scoped violation of the view-model state check. -/
def vmViol : Violation :=
  { severity := warningSev, rule := "missing_viewmodel_state", message := vmMsg,
    line := none }

/-- Rule check for a missing view-model State enum: file scoped, at most one
violation, no line number; returns nothing when no view-model class is
declared. -/
def checkViewModelStateEnum (s : List Char) : List Violation :=
  if hasViewModelClass s then
    if hasStateEnum s then [] else [vmViol]
  else []

/-- Worker for the balanced-delimiter scan of the accessibility check: track
a signed brace depth from offset i; stop at the closing brace where the depth
first returns to zero after a brace has been seen; when the text (or the
fuel) ends first, keep the initial value dflt. -/
def buttonEndGo (s : List Char) (dflt : Nat) : Nat → Nat → Int → Bool → Nat
  | 0, _, _, _ => dflt
  | fuel + 1, i, cnt, inb =>
    match s.get? i with
    | none => dflt
    | some c =>
      if c == '\x7b' then buttonEndGo s dflt fuel (i + 1) (cnt + 1) true
      else if c == '\x7d' then
        if inb && cnt - 1 == 0 then i
        else buttonEndGo s dflt fuel (i + 1) (cnt - 1) inb
      else buttonEndGo s dflt fuel (i + 1) cnt inb

/-- Balanced-delimiter scan from a start offset, with the start offset itself
as the fallback value when the scan runs off the end of the text. -/
def buttonEnd (s : List Char) (start : Nat) : Nat :=
  buttonEndGo s start s.length start 0 false

/-- All occurrences of the Button literal, via the generic scan. -/
def buttonMatches (s : List Char) : List (Nat × Nat × Unit) :=
  finditer (fun i => if litAt s buttonLit i then some (i + 7, ()) else none) s.length

/-- Violation built by the accessibility-label check for one button. -/
def accViol (s : List Char) (i : Nat) : Violation :=
  { severity := warningSev, rule := "missing_accessibility_label", message := accMsg,
    line := some (lineNum s i) }

/-- Rule check for accessibility labels: for each button occurrence, scan the
snippet from the button start to 200 characters past the balanced-delimiter
end (clipped to the text length); report when the snippet contains an image
constructor but no accessibility-label annotation. -/
def checkAccessibilityLabels (s : List Char) : List Violation :=
  (buttonMatches s).filterMap (fun m =>
    let be := buttonEnd s m.1
    let snip := (s.drop m.1).take (min (be + 200) s.length - m.1)
    if containsSub imageOpenLit snip && !containsSub accLabelLit snip then
      some (accViol s m.1)
    else none)

/-- All checks in source order, each contributing its violations in match
order; the concatenation models the mutable violations list built up by
successive add-violation calls. -/
def analyzeChecks (code : List Char) : List Violation :=
  checkHardcodedFrameSizes code ++ checkHardcodedColors code ++
    checkHardcodedFonts code ++ checkForceUnwrapping code ++
    checkTouchTargetSizes code ++ checkViewModelStateEnum code ++
    checkAccessibilityLabels code

/-- Analyzer instance: the code under analysis and the accumulated
violations. -/
structure SwiftAnalyzer where
  code : List Char
  violations : List Violation
  deriving DecidableEq

/-- Constructor: a fresh analyzer starts with an empty violations list. -/
def SwiftAnalyzer.init (code : List Char) : SwiftAnalyzer :=
  ⟨code, []⟩

/-- Run all analysis checks, appending their violations to the instance
state. -/
def SwiftAnalyzer.runAll (a : SwiftAnalyzer) : SwiftAnalyzer :=
  { a with violations := a.violations ++ analyzeChecks a.code }

/-- Summary counts of an analysis result. -/
structure Summary where
  total : Nat
  errors : Nat
  warnings : Nat
  deriving DecidableEq

/-- Result aggregate of one analysis request. -/
structure AnalysisResult where
  status : String
  violations : List Violation
  summary : Summary
  deriving DecidableEq

/-- Main entry point: build a fresh analyzer over the code, run all checks,
and derive the summary counts by filtering on severity. -/
def analyzeSwiftCode (code : List Char) : AnalysisResult :=
  let a := (SwiftAnalyzer.init code).runAll
  let violations := a.violations
  { status := "success",
    violations := violations,
    summary :=
      { total := violations.length,
        errors := (violations.filter (fun v => v.severity == errorSev)).length,
        warnings := (violations.filter (fun v => v.severity == warningSev)).length } }

/-- Example input: a height directive on line one followed by a width
directive on line two. -/
def exFrameOrder : List Char := ".frame(height: 5)\n.frame(width: 6)".toList

/-- Example input: a control whose brace-enclosed body contains a small
fixed-size frame directive. -/
def exTouchInBody : List Char := "Button(a) \x7b b.frame(width: 30) \x7d".toList

/-- The frame directive with value 30, as a literal. -/
def frameWidth30Lit : List Char := ".frame(width: 30)".toList

/-- Example input: a control whose modifier chain after the closure carries a
frame directive of 30 points. -/
def exTouchModifier30 : List Char :=
  "Button(action: f) \x7b Image(s) \x7d.frame(width: 30)".toList

/-- Example input: the same control with a frame directive of 60 points. -/
def exTouchModifier60 : List Char :=
  "Button(action: f) \x7b Image(s) \x7d.frame(width: 60)".toList

/-- Example input: a button with an opening brace that is never closed, an
image constructor near the start, and an accessibility label more than 200
characters past the start. -/
def exUnbalanced : List Char :=
  "Button( \x7b Image(x)".toList ++ List.replicate 250 ' ' ++ ".accessibilityLabel(y)".toList

/-- Example input: a class whose declared name contains the ViewModel suffix
strictly inside it, not at the end. -/
def exVMFactory : List Char := "class FooViewModelFactory \x7b\x7d".toList

/-- Example input: a view-model class with no State enum. -/
def exProfileNoState : List Char := "class ProfileViewModel \x7b\x7d".toList

/-- Example input: a view-model class with a State enum. -/
def exProfileWithState : List Char :=
  "class ProfileViewModel \x7b enum State \x7b case idle \x7d \x7d".toList

/-- Example input: a red-component UIColor constructor call. -/
def exUIColor : List Char :=
  "let c = UIColor(red: 0.5, green: 0.2, blue: 0.1, alpha: 1)".toList

/-- Example input: a combined two-argument frame directive. -/
def exCombined : List Char := ".frame(width: 100, height: 50)".toList

/-- Example input: a single-argument width directive. -/
def exWidthOnly : List Char := ".frame(width: 100)".toList

/-- Example inputs of the force-unwrap testable properties. -/
def exCommentBang : List Char := "// foo!".toList

def exBangComment : List Char := "foo! // comment".toList

def exNotEqual : List Char := "x != y".toList

def exBang : List Char := "x!".toList

/-- Definition following the words of the specification, for comparison with
the code: the source declares a class whose declared name (the maximal
word-character run after the class keyword and its whitespace) ends in the
ViewModel suffix. -/
def specViewModelTypeDeclared (s : List Char) : Bool :=
  (List.range (s.length + 1)).any (fun i =>
    litAt s classLit i &&
      (let k := countWhile isSpaceC s (i + 5)
       let p := i + 5 + k
       let w := countWhile isWordC s p
       0 < k && 0 < w && viewModelLit.isSuffixOf ((s.drop p).take w)))

/-- The force-unwrap site condition of the claim, spelled on offsets: the
character at i is the forced-unwrap operator, the three preceding characters
are not the forced-try token, and the following character is not an equality
sign. -/
def forcedUnwrapSite (s : List Char) (i : Nat) : Bool :=
  s.get? i == some '!' &&
    !(decide (3 ≤ i) && litAt s tryLit (i - 3)) &&
    !(s.get? (i + 1) == some '=')

/-- Number of occurrences of a character in s at offsets in the half-open
range from a to b. -/
def countCharBetween (c : Char) (s : List Char) (a b : Nat) : Nat :=
  ((s.take b).drop a).countP (fun x => x == c)

/-- The break condition of the balanced-delimiter scan at offset i for a scan
started at offset start, expressed over prefix counts: the character at i is
a closing brace, at least one opening brace occurs before i since the start,
and the signed depth (opens minus closes) over that prefix is exactly one. -/
def braceBreakAt (s : List Char) (start i : Nat) : Bool :=
  (s.get? i == some '\x7d') &&
    (decide (0 < countCharBetween '\x7b' s start i) &&
      (((countCharBetween '\x7b' s start i : Int) -
          (countCharBetween '\x7d' s start i : Int)) - 1 == 0))

/-- The text from the start offset ends before the break condition of the
balanced-delimiter scan is ever met: the unbalanced case, whether or not any
closing brace is present. -/
def depthNeverCloses (s : List Char) (start : Nat) : Bool :=
  !((List.range s.length).any (fun i => decide (start ≤ i) && braceBreakAt s start i))

/-- Example input: a control body with nested braces; the lazily matched
segment of the touch-target pattern ends at the inner closing brace, so a
frame directive inside the outer braces is matched. -/
def exTouchNested : List Char :=
  "Button(a) \x7b if x \x7b y \x7d z.frame(width: 30) \x7d".toList

/-- Example input: an unbalanced text that does contain closing braces: a
close before any open, then an open that never closes. -/
def exCloseOpen : List Char := "Button( \x7d \x7b Image(x)".toList

/-! ### Helper lemmas on the per-rule checks -/

theorem mem_checkFrame {s : List Char} {v : Violation}
    (h : v ∈ checkHardcodedFrameSizes s) :
    v.severity = warningSev ∧ v.rule = "hardcoded_frame_size" := by
  simp only [checkHardcodedFrameSizes, List.mem_append, List.mem_map] at h
  rcases h with ⟨m, _, rfl⟩ | ⟨m, _, rfl⟩ <;> exact ⟨rfl, rfl⟩

theorem mem_checkColors {s : List Char} {v : Violation}
    (h : v ∈ checkHardcodedColors s) :
    v.severity = warningSev ∧ v.rule = "hardcoded_color" := by
  simp only [checkHardcodedColors, List.mem_append, List.mem_map] at h
  rcases h with ((⟨m, _, rfl⟩ | ⟨m, _, rfl⟩) | ⟨m, _, rfl⟩) | ⟨m, _, rfl⟩ <;> exact ⟨rfl, rfl⟩

theorem mem_checkFonts {s : List Char} {v : Violation}
    (h : v ∈ checkHardcodedFonts s) :
    v.severity = warningSev ∧ v.rule = "hardcoded_font_size" := by
  simp only [checkHardcodedFonts, List.mem_map] at h
  obtain ⟨m, _, rfl⟩ := h
  exact ⟨rfl, rfl⟩

theorem mem_checkForce {s : List Char} {v : Violation}
    (h : v ∈ checkForceUnwrapping s) :
    v.severity = errorSev ∧ v.rule = "force_unwrapping" := by
  simp only [checkForceUnwrapping, List.mem_filterMap] at h
  obtain ⟨m, _, hm⟩ := h
  by_cases hc : suppressedByCmnt s m.1 = true
  · rw [if_pos hc] at hm; cases hm
  · rw [if_neg hc] at hm
    obtain rfl := Option.some.inj hm
    exact ⟨rfl, rfl⟩

theorem mem_checkTouch {s : List Char} {v : Violation}
    (h : v ∈ checkTouchTargetSizes s) :
    v.severity = errorSev ∧ v.rule = "touch_target_too_small" := by
  simp only [checkTouchTargetSizes, List.mem_filterMap] at h
  obtain ⟨m, _, hm⟩ := h
  by_cases hc : digitsToNat m.2.2 < 44
  · rw [if_pos hc] at hm
    obtain rfl := Option.some.inj hm
    exact ⟨rfl, rfl⟩
  · rw [if_neg hc] at hm; cases hm

theorem mem_checkVM {s : List Char} {v : Violation}
    (h : v ∈ checkViewModelStateEnum s) :
    v.severity = warningSev ∧ v.rule = "missing_viewmodel_state" := by
  unfold checkViewModelStateEnum at h
  split at h
  · split at h
    · cases h
    · rw [List.mem_singleton] at h
      subst h
      exact ⟨rfl, rfl⟩
  · cases h

theorem mem_checkAcc {s : List Char} {v : Violation}
    (h : v ∈ checkAccessibilityLabels s) :
    v.severity = warningSev ∧ v.rule = "missing_accessibility_label" := by
  simp only [checkAccessibilityLabels, List.mem_filterMap] at h
  obtain ⟨m, _, hm⟩ := h
  by_cases hc : (containsSub imageOpenLit ((s.drop m.1).take (min (buttonEnd s m.1 + 200) s.length - m.1)) && !containsSub accLabelLit ((s.drop m.1).take (min (buttonEnd s m.1 + 200) s.length - m.1))) = true
  · rw [if_pos hc] at hm
    obtain rfl := Option.some.inj hm
    exact ⟨rfl, rfl⟩
  · rw [if_neg hc] at hm; cases hm

theorem mem_analyzeChecks {code : List Char} {v : Violation}
    (h : v ∈ analyzeChecks code) :
    v.severity = errorSev ∨ v.severity = warningSev := by
  simp only [analyzeChecks, List.mem_append] at h
  rcases h with ((((((h | h) | h) | h) | h) | h) | h)
  · exact Or.inr (mem_checkFrame h).1
  · exact Or.inr (mem_checkColors h).1
  · exact Or.inr (mem_checkFonts h).1
  · exact Or.inl (mem_checkForce h).1
  · exact Or.inl (mem_checkTouch h).1
  · exact Or.inr (mem_checkVM h).1
  · exact Or.inr (mem_checkAcc h).1

theorem length_filter_sev (l : List Violation)
    (h : ∀ v ∈ l, v.severity = errorSev ∨ v.severity = warningSev) :
    (l.filter (fun v => v.severity == errorSev)).length +
      (l.filter (fun v => v.severity == warningSev)).length = l.length := by
  have h1 : (errorSev == errorSev) = true := by decide
  have h2 : (errorSev == warningSev) = false := by decide
  have h3 : (warningSev == warningSev) = true := by decide
  have h4 : (warningSev == errorSev) = false := by decide
  induction l with
  | nil => rfl
  | cons a t ih =>
    have ht := ih (fun v hv => h v (List.mem_cons_of_mem a hv))
    rcases h a (List.mem_cons_self a t) with ha | ha <;>
      simp [List.filter_cons, ha, h1, h2, h3, h4] <;> omega

/-! ### Helper lemmas on the generic scan -/

theorem finditerGo_lower {α : Type} (f : Nat → Option (Nat × α)) :
    ∀ (fuel pos : Nat), ∀ m ∈ finditerGo f fuel pos, pos ≤ m.1 := by
  intro fuel
  induction fuel with
  | zero => intro pos m hm; cases hm
  | succ fuel ih =>
    intro pos m hm
    cases hf : f pos with
    | some ea =>
      simp only [finditerGo, hf] at hm
      rcases List.mem_cons.1 hm with rfl | hm
      · exact le_rfl
      · have h1 := ih _ m hm
        split at h1 <;> omega
    | none =>
      simp only [finditerGo, hf] at hm
      exact Nat.le_of_succ_le (ih _ m hm)

theorem finditerGo_sorted {α : Type} (f : Nat → Option (Nat × α)) :
    ∀ (fuel pos : Nat),
      ((finditerGo f fuel pos).map (fun m => m.1)).Pairwise (· < ·) := by
  intro fuel
  induction fuel with
  | zero => intro pos; simp [finditerGo]
  | succ fuel ih =>
    intro pos
    cases hf : f pos with
    | none => simpa only [finditerGo, hf] using ih (pos + 1)
    | some ea =>
      simp only [finditerGo, hf, List.map_cons]
      refine List.Pairwise.cons ?_ (ih _)
      intro b hb
      simp only [List.mem_map] at hb
      obtain ⟨m, hm, rfl⟩ := hb
      have h1 := finditerGo_lower f fuel _ m hm
      split at h1 <;> omega

/-! ### Helper lemmas on the balanced-delimiter scan -/

theorem countCharBetween_succ (c : Char) (s : List Char) (a i : Nat) (hai : a ≤ i)
    {ci : Char} (hg : s.get? i = some ci) :
    countCharBetween c s a (i + 1) =
      countCharBetween c s a i + (if ci == c then 1 else 0) := by
  have hlen : i < s.length := by
    by_contra hx
    rw [List.get?_eq_none.2 (Nat.le_of_not_lt hx)] at hg
    cases hg
  have hg2 : s[i]? = some ci := by
    rw [← List.get?_eq_getElem?]
    exact hg
  unfold countCharBetween
  rw [List.take_succ, hg2]
  have hle : a ≤ (s.take i).length := by
    rw [List.length_take]
    exact le_min hai (by omega)
  rw [List.drop_append_of_le_length hle, List.countP_append]
  simp [List.countP_cons, Option.toList]

theorem countCharBetween_start (c : Char) (s : List Char) (a : Nat) :
    countCharBetween c s a a = 0 := by
  unfold countCharBetween
  rw [List.drop_eq_nil_of_le]
  · rfl
  · rw [List.length_take]
    exact min_le_left a s.length

theorem buttonEndGo_close {s : List Char} {dflt : Nat} :
    ∀ (fuel i : Nat) (cnt : Int) (inb : Bool),
      buttonEndGo s dflt fuel i cnt inb = dflt ∨
        (buttonEndGo s dflt fuel i cnt inb < s.length ∧
          s.get? (buttonEndGo s dflt fuel i cnt inb) = some '\x7d') := by
  intro fuel
  induction fuel with
  | zero => intro i cnt inb; exact Or.inl rfl
  | succ fuel ih =>
    intro i cnt inb
    cases hg : s.get? i with
    | none => exact Or.inl (by simp only [buttonEndGo, hg])
    | some c =>
      have hlt : i < s.length := by
        by_contra hge
        rw [List.get?_eq_none.2 (Nat.le_of_not_lt hge)] at hg
        cases hg
      simp only [buttonEndGo, hg]
      by_cases hb : (c == '\x7b') = true
      · rw [if_pos hb]; exact ih _ _ _
      · rw [if_neg hb]
        by_cases hd : (c == '\x7d') = true
        · rw [if_pos hd]
          by_cases he : (inb && cnt - 1 == 0) = true
          · rw [if_pos he]
            refine Or.inr ⟨hlt, ?_⟩
            rw [hg, beq_iff_eq.1 hd]
          · rw [if_neg he]; exact ih _ _ _
        · rw [if_neg hd]; exact ih _ _ _

theorem buttonEndGo_no_break (s : List Char) (dflt start : Nat)
    (hall : ∀ j, start ≤ j → braceBreakAt s start j = false) :
    ∀ (fuel i : Nat), start ≤ i → ∀ (cnt : Int) (inb : Bool),
      cnt = (countCharBetween '\x7b' s start i : Int) -
          (countCharBetween '\x7d' s start i : Int) →
      inb = decide (0 < countCharBetween '\x7b' s start i) →
      buttonEndGo s dflt fuel i cnt inb = dflt := by
  intro fuel
  induction fuel with
  | zero => intro i _ cnt inb _ _; rfl
  | succ fuel ih =>
    intro i hsi cnt inb hcnt hinb
    cases hg : s.get? i with
    | none => simp only [buttonEndGo, hg]
    | some c =>
      have hsO := countCharBetween_succ '\x7b' s start i hsi hg
      have hsC := countCharBetween_succ '\x7d' s start i hsi hg
      simp only [buttonEndGo, hg]
      by_cases hb : (c == '\x7b') = true
      · have hc : c = '\x7b' := beq_iff_eq.1 hb
        subst hc
        rw [if_pos hb]
        have hO : countCharBetween '\x7b' s start (i + 1) =
            countCharBetween '\x7b' s start i + 1 := by
          rw [hsO, if_pos hb]
        have hC : countCharBetween '\x7d' s start (i + 1) =
            countCharBetween '\x7d' s start i := by
          rw [hsC, if_neg (by decide), Nat.add_zero]
        refine ih (i + 1) (by omega) (cnt + 1) true ?_ ?_
        · rw [hO, hC, hcnt]
          push_cast
          ring
        · rw [hO]
          exact (decide_eq_true (Nat.succ_pos _)).symm
      · rw [if_neg hb]
        by_cases hd : (c == '\x7d') = true
        · have hc : c = '\x7d' := beq_iff_eq.1 hd
          subst hc
          rw [if_pos hd]
          have hbrk := hall i hsi
          unfold braceBreakAt at hbrk
          rw [hg] at hbrk
          rw [(by decide : ((some '\x7d' : Option Char) == some '\x7d') = true),
            Bool.true_and] at hbrk
          have hloop : (inb && cnt - 1 == 0) = false := by
            rw [hinb, hcnt]
            exact hbrk
          rw [hloop, if_neg Bool.false_ne_true]
          have hO : countCharBetween '\x7b' s start (i + 1) =
              countCharBetween '\x7b' s start i := by
            rw [hsO, if_neg (by decide), Nat.add_zero]
          have hC : countCharBetween '\x7d' s start (i + 1) =
              countCharBetween '\x7d' s start i + 1 := by
            rw [hsC, if_pos hd]
          refine ih (i + 1) (by omega) (cnt - 1) inb ?_ ?_
          · rw [hO, hC, hcnt]
            push_cast
            ring
          · rw [hO]
            exact hinb
        · rw [if_neg hd]
          have hO : countCharBetween '\x7b' s start (i + 1) =
              countCharBetween '\x7b' s start i := by
            rw [hsO, if_neg hb, Nat.add_zero]
          have hC : countCharBetween '\x7d' s start (i + 1) =
              countCharBetween '\x7d' s start i := by
            rw [hsC, if_neg hd, Nat.add_zero]
          exact ih (i + 1) (by omega) cnt inb (by rw [hO, hC]; exact hcnt)
            (by rw [hO]; exact hinb)

theorem buttonEndGo_bound {s : List Char} {dflt : Nat} :
    ∀ (fuel i : Nat) (cnt : Int) (inb : Bool),
      buttonEndGo s dflt fuel i cnt inb = dflt ∨
        buttonEndGo s dflt fuel i cnt inb < s.length := by
  intro fuel
  induction fuel with
  | zero => intro i cnt inb; exact Or.inl rfl
  | succ fuel ih =>
    intro i cnt inb
    cases hg : s.get? i with
    | none => exact Or.inl (by simp only [buttonEndGo, hg])
    | some c =>
      have hlt : i < s.length := by
        by_contra hge
        rw [List.get?_eq_none.2 (Nat.le_of_not_lt hge)] at hg
        cases hg
      simp only [buttonEndGo, hg]
      by_cases hb : (c == '\x7b') = true
      · rw [if_pos hb]; exact ih _ _ _
      · rw [if_neg hb]
        by_cases hd : (c == '\x7d') = true
        · rw [if_pos hd]
          by_cases he : (inb && cnt - 1 == 0) = true
          · rw [if_pos he]; exact Or.inr hlt
          · rw [if_neg he]; exact ih _ _ _
        · rw [if_neg hd]; exact ih _ _ _

/-! ### Claim theorems -/

/-- C1: for every input string, the AnalysisResult produced by the core
analyze operation satisfies total equal to the violation count, errors plus
warnings equal to total, and every violation severity is one of the two
enumerated values error and warning. -/
theorem analyze_summary_invariant (code : List Char) :
    (analyzeSwiftCode code).summary.total = (analyzeSwiftCode code).violations.length ∧
    (analyzeSwiftCode code).summary.errors + (analyzeSwiftCode code).summary.warnings =
      (analyzeSwiftCode code).summary.total ∧
    ∀ v ∈ (analyzeSwiftCode code).violations,
      v.severity = errorSev ∨ v.severity = warningSev := by
  have hv : (analyzeSwiftCode code).violations = analyzeChecks code := rfl
  refine ⟨rfl, ?_, ?_⟩
  · exact length_filter_sev (analyzeChecks code)
      (fun v hv2 => mem_analyzeChecks hv2)
  · intro v hv2
    exact mem_analyzeChecks (hv ▸ hv2)

/-- Witness for C1: the invariant applied at a concrete input with one
violation. -/
theorem analyze_summary_invariant_witness :
    (forceViol exBang 1).severity = errorSev ∨ (forceViol exBang 1).severity = warningSev :=
  (analyze_summary_invariant exBang).2.2 (forceViol exBang 1) (by decide)

/-- C7: calling the core analyze operation twice on identical source text
yields identical results; the entry point builds a fresh analyzer whose
violations list starts empty, so no state is carried between calls. -/
theorem analyze_idempotent (code : List Char) :
    analyzeSwiftCode code = analyzeSwiftCode code ∧
    (analyzeSwiftCode code).violations = ((SwiftAnalyzer.init code).runAll).violations ∧
    (SwiftAnalyzer.init code).violations = ([] : List Violation) :=
  ⟨rfl, rfl, rfl⟩

/-- C8 counterexample: on a height directive on line one followed by a width
directive on line two, the two hardcoded frame size violations are reported
with the width match (line two) first, so within the rule the violations are
not in ascending match start order. -/
theorem violation_order_counterexample :
    ((analyzeSwiftCode exFrameOrder).violations.map (fun v => (v.rule, v.line))) =
      [("hardcoded_frame_size", some 2), ("hardcoded_frame_size", some 1)] := by decide

/-- C8 amended: violations appear in rule order (frame sizes, colours, fonts,
force unwrapping, touch targets, view-model state, accessibility labels);
within a rule they appear in sub-pattern order, and within each single
sub-pattern scan the match start offsets are strictly increasing. -/
theorem violation_order_amended (code : List Char) :
    (analyzeSwiftCode code).violations =
      checkHardcodedFrameSizes code ++ checkHardcodedColors code ++
        checkHardcodedFonts code ++ checkForceUnwrapping code ++
        checkTouchTargetSizes code ++ checkViewModelStateEnum code ++
        checkAccessibilityLabels code ∧
    ((finditer (matchSizedAt frameWidthLit code) code.length).map (fun m => m.1)).Pairwise (· < ·) ∧
    ((finditer (matchSizedAt frameHeightLit code) code.length).map (fun m => m.1)).Pairwise (· < ·) ∧
    ((finditer (matchColorNum colorRedLit code) code.length).map (fun m => m.1)).Pairwise (· < ·) ∧
    ((finditer (matchColorSRGB code) code.length).map (fun m => m.1)).Pairwise (· < ·) ∧
    ((finditer (matchColorNum colorHueLit code) code.length).map (fun m => m.1)).Pairwise (· < ·) ∧
    ((finditer (matchColorNum uiColorRedLit code) code.length).map (fun m => m.1)).Pairwise (· < ·) ∧
    ((finditer (matchSizedAt fontSizeLit code) code.length).map (fun m => m.1)).Pairwise (· < ·) ∧
    ((forceMatches code).map (fun m => m.1)).Pairwise (· < ·) ∧
    ((touchMatches code).map (fun m => m.1)).Pairwise (· < ·) ∧
    ((buttonMatches code).map (fun m => m.1)).Pairwise (· < ·) :=
  ⟨rfl, finditerGo_sorted _ _ _, finditerGo_sorted _ _ _, finditerGo_sorted _ _ _,
    finditerGo_sorted _ _ _, finditerGo_sorted _ _ _, finditerGo_sorted _ _ _,
    finditerGo_sorted _ _ _, finditerGo_sorted _ _ _, finditerGo_sorted _ _ _,
    finditerGo_sorted _ _ _⟩

/-- C4 counterexample: a control whose brace-enclosed body contains a frame
directive with value 30 yields no touch-target match and no violation at all,
although the claim predicts one error embedding 30. -/
theorem touch_target_body_counterexample :
    checkTouchTargetSizes exTouchInBody = [] ∧
    touchMatches exTouchInBody = [] ∧
    containsSub frameWidth30Lit exTouchInBody = true := by decide

/-- C4 amended: every touch-target violation is an error built from a touch
pattern match whose captured integer is below 44.  The lazily matched body
segment of the pattern ends at the FIRST closing brace after the opening
brace, not at the matching one: so the frame directive is found after the
control closure of a single-level body (30 points yields exactly one error
embedding 30, 60 points yields none), a directive inside a single-level
brace body is not matched, but a directive inside the outer braces of a body
with nested braces IS matched and reported. -/
theorem touch_target_amended (code : List Char) :
    (∀ v ∈ checkTouchTargetSizes code,
        v.severity = errorSev ∧ v.rule = "touch_target_too_small" ∧
        ∃ m ∈ touchMatches code, digitsToNat m.2.2 < 44 ∧
          v = touchViol code m.1 (digitsToNat m.2.2)) ∧
    checkTouchTargetSizes exTouchModifier30 = [touchViol exTouchModifier30 0 30] ∧
    checkTouchTargetSizes exTouchModifier60 = [] ∧
    checkTouchTargetSizes exTouchNested = [touchViol exTouchNested 0 30] := by
  refine ⟨?_, by decide, by decide, by decide⟩
  intro v hv
  simp only [checkTouchTargetSizes, List.mem_filterMap] at hv
  obtain ⟨m, hm, hsome⟩ := hv
  by_cases hc : digitsToNat m.2.2 < 44
  · rw [if_pos hc] at hsome
    obtain rfl := Option.some.inj hsome
    exact ⟨rfl, rfl, m, hm, hc, rfl⟩
  · rw [if_neg hc] at hsome
    cases hsome

/-- Witness for C4 amended at a concrete input. -/
theorem touch_target_amended_witness :
    touchViol exTouchModifier30 0 30 ∈ checkTouchTargetSizes exTouchModifier30 ∧
    (touchViol exTouchModifier30 0 30).severity = errorSev :=
  ⟨by decide,
   ((touch_target_amended exTouchModifier30).1 (touchViol exTouchModifier30 0 30)
      (by decide)).1⟩

/-- C5 counterexample: on a button whose brace is never closed, the
balanced-delimiter scan leaves the end marker at the start offset, the
scanned snippet is the 200-character window from the start rather than a span
to end of text, and consequently a violation is reported even though an
accessibility label occurs later in the text. -/
theorem balanced_scan_counterexample :
    buttonEnd exUnbalanced 0 = 0 ∧
    200 < exUnbalanced.length ∧
    min (buttonEnd exUnbalanced 0 + 200) exUnbalanced.length = 200 ∧
    (checkAccessibilityLabels exUnbalanced).map (fun v => v.rule) =
      ["missing_accessibility_label"] ∧
    containsSub accLabelLit exUnbalanced = true := by decide

/-- C5 amended: when the text from the start offset ends before the break
condition of the scan is ever met (a closing brace at which an opening brace
has been seen and opens exceed closes by exactly one), the scan returns the
start offset itself — the span collapses rather than extending to end of
text; this covers unbalanced inputs both without closing braces and with
closing braces that never balance.  In every case the scan returns either
the start offset or the offset of a closing brace inside the text, and on
the unbalanced example the accessibility check scans only the 200-character
window from the start. -/
theorem balanced_scan_amended :
    (∀ (s : List Char) (start : Nat), depthNeverCloses s start = true →
      buttonEnd s start = start) ∧
    (∀ (s : List Char) (start : Nat),
      buttonEnd s start = start ∨
        (buttonEnd s start < s.length ∧
          s.get? (buttonEnd s start) = some '\x7d')) ∧
    depthNeverCloses exCloseOpen 0 = true ∧
    buttonEnd exCloseOpen 0 = 0 ∧
    depthNeverCloses exUnbalanced 0 = true ∧
    min (buttonEnd exUnbalanced 0 + 200) exUnbalanced.length - 0 = 200 ∧
    (checkAccessibilityLabels exUnbalanced).map (fun v => v.line) = [some 1] := by
  refine ⟨?_, ?_, by decide, by decide, by decide, by decide, by decide⟩
  · intro s start hnc
    have hnc2 : ((List.range s.length).any
        (fun i => decide (start ≤ i) && braceBreakAt s start i)) = false := by
      cases hx : (List.range s.length).any
          (fun i => decide (start ≤ i) && braceBreakAt s start i)
      · rfl
      · exfalso
        have hfalse : depthNeverCloses s start = false := by
          unfold depthNeverCloses
          rw [hx]
          rfl
        rw [hfalse] at hnc
        cases hnc
    have hall : ∀ j, start ≤ j → braceBreakAt s start j = false := by
      intro j hj
      by_cases hjl : j < s.length
      · cases hbv : braceBreakAt s start j
        · rfl
        · exfalso
          have hmem : j ∈ List.range s.length := List.mem_range.2 hjl
          have htrue : (List.range s.length).any
              (fun i => decide (start ≤ i) && braceBreakAt s start i) = true := by
            rw [List.any_eq_true]
            exact ⟨j, hmem, by rw [decide_eq_true hj, hbv]; rfl⟩
          rw [htrue] at hnc2
          cases hnc2
      · unfold braceBreakAt
        rw [List.get?_eq_none.2 (Nat.le_of_not_lt hjl)]
        rfl
    exact buttonEndGo_no_break s start start hall s.length start le_rfl 0 false
      (by rw [countCharBetween_start, countCharBetween_start]; rfl)
      (by rw [countCharBetween_start]; rfl)
  · intro s start
    exact buttonEndGo_close _ _ _ _

/-- Witness for C5 amended at a concrete unbalanced input. -/
theorem balanced_scan_amended_witness :
    buttonEnd ("abc".toList) 0 = 0 :=
  balanced_scan_amended.1 ("abc".toList) 0 (by decide)

/-! ### Helper lemmas for rule filtering -/

theorem filter_rule_nil {l : List Violation} {r target : String}
    (hl : ∀ v ∈ l, v.rule = r) (hne : (r == target) = false) :
    l.filter (fun v => v.rule == target) = [] := by
  rw [List.filter_eq_nil]
  intro v hv
  rw [hl v hv, hne]
  exact Bool.false_ne_true

theorem vm_rule_filter (code : List Char) :
    ((analyzeSwiftCode code).violations.filter
        (fun v => v.rule == "missing_viewmodel_state")) =
      checkViewModelStateEnum code := by
  have hv : (analyzeSwiftCode code).violations = analyzeChecks code := rfl
  rw [hv]
  simp only [analyzeChecks, List.filter_append]
  rw [filter_rule_nil (fun v hv2 => (mem_checkFrame hv2).2) (by decide),
    filter_rule_nil (fun v hv2 => (mem_checkColors hv2).2) (by decide),
    filter_rule_nil (fun v hv2 => (mem_checkFonts hv2).2) (by decide),
    filter_rule_nil (fun v hv2 => (mem_checkForce hv2).2) (by decide),
    filter_rule_nil (fun v hv2 => (mem_checkTouch hv2).2) (by decide),
    filter_rule_nil (fun v hv2 => (mem_checkAcc hv2).2) (by decide)]
  have hvm : (checkViewModelStateEnum code).filter
      (fun v => v.rule == "missing_viewmodel_state") = checkViewModelStateEnum code := by
    unfold checkViewModelStateEnum
    split
    · split
      · rfl
      · simp [List.filter_cons, vmViol]
    · rfl
  rw [hvm]
  simp

/-- C6 counterexample: a class whose declared name only contains the
ViewModel suffix strictly inside it is not a type whose name ends in the
suffix according to the specification reading, yet the analyzer still emits
the missing-state warning for it. -/
theorem viewmodel_scope_counterexample :
    specViewModelTypeDeclared exVMFactory = false ∧
    (analyzeSwiftCode exVMFactory).violations = [vmViol] := by decide

/-- C6 amended: the analyzer emits the file-scoped missing-state warning,
with no line number, exactly when the text matches the class pattern (the
class keyword, whitespace, then at least one word character followed by the
ViewModel literal anywhere inside the identifier) and contains no State enum
pattern; a ProfileViewModel class without a State enum yields exactly the one
warning and with a State enum yields none. -/
theorem viewmodel_state_amended (code : List Char) :
    ((analyzeSwiftCode code).violations.filter
        (fun v => v.rule == "missing_viewmodel_state")) =
      (if hasViewModelClass code && !hasStateEnum code then [vmViol] else []) ∧
    vmViol.line = none ∧
    (analyzeSwiftCode exProfileNoState).violations = [vmViol] ∧
    (analyzeSwiftCode exProfileWithState).violations = [] := by
  refine ⟨?_, rfl, by decide, by decide⟩
  rw [vm_rule_filter code]
  unfold checkViewModelStateEnum
  cases h1 : hasViewModelClass code <;> cases h2 : hasStateEnum code <;> simp [h1, h2]

/-- C10: every hardcoded frame size match ends with a closing parenthesis
immediately after a nonempty digit group, and the combined two-argument frame
directive yields no violations at all. -/
theorem frame_size_combined (code : List Char) :
    (∀ (i e : Nat) (ds : List Char), matchSizedAt frameWidthLit code i = some (e, ds) →
        code.get? (e - 1) = some ')' ∧ ds ≠ []) ∧
    (∀ (i e : Nat) (ds : List Char), matchSizedAt frameHeightLit code i = some (e, ds) →
        code.get? (e - 1) = some ')' ∧ ds ≠ []) ∧
    (analyzeSwiftCode exCombined).violations = [] := by
  have key : ∀ (t : List Char) (i e : Nat) (ds : List Char),
      matchSizedAt t code i = some (e, ds) →
      code.get? (e - 1) = some ')' ∧ ds ≠ [] := by
    intro t i e ds h
    simp only [matchSizedAt] at h
    split at h
    · split at h
      · rename_i hcond
        obtain ⟨he, hds⟩ := Prod.mk.injEq .. ▸ Option.some.inj h
        rw [Bool.and_eq_true] at hcond
        obtain ⟨hd, hp⟩ := hcond
        constructor
        · rw [← he]
          simpa using (beq_iff_eq.1 hp)
        · rw [← hds]
          apply List.ne_nil_of_length_pos
          rw [List.length_take]
          have hle : countWhile Char.isDigit code
                (i + t.length + countWhile isSpaceC code (i + t.length)) ≤
              (code.drop (i + t.length + countWhile isSpaceC code (i + t.length))).length := by
            unfold countWhile
            exact (List.takeWhile_sublist _).length_le
          simp only [decide_eq_true_eq] at hd
          omega
      · cases h
    · cases h
  exact ⟨fun i e ds h => key frameWidthLit i e ds h,
    fun i e ds h => key frameHeightLit i e ds h, by decide⟩

/-- Witness for C10 at a concrete single-argument directive. -/
theorem frame_size_combined_witness :
    exWidthOnly.get? 17 = some ')' ∧ ("100".toList ≠ ([] : List Char)) :=
  (frame_size_combined exWidthOnly).1 0 18 ("100".toList) (by decide)

/-- C2: the core analyze operation is a total function that reports success
on every input; every rule whose trigger pattern produces no match
contributes zero violations; the empty input yields no violations; and the
balanced-delimiter scan always lands on the start offset or strictly inside
the text, for any start offset, balanced or not. -/
theorem analyze_never_fails (code : List Char) :
    (analyzeSwiftCode code).status = "success" ∧
    (finditer (matchSizedAt frameWidthLit code) code.length = [] →
      finditer (matchSizedAt frameHeightLit code) code.length = [] →
      checkHardcodedFrameSizes code = []) ∧
    (finditer (matchColorNum colorRedLit code) code.length = [] →
      finditer (matchColorSRGB code) code.length = [] →
      finditer (matchColorNum colorHueLit code) code.length = [] →
      finditer (matchColorNum uiColorRedLit code) code.length = [] →
      checkHardcodedColors code = []) ∧
    (finditer (matchSizedAt fontSizeLit code) code.length = [] →
      checkHardcodedFonts code = []) ∧
    (forceMatches code = [] → checkForceUnwrapping code = []) ∧
    (touchMatches code = [] → checkTouchTargetSizes code = []) ∧
    (hasViewModelClass code = false → checkViewModelStateEnum code = []) ∧
    (buttonMatches code = [] → checkAccessibilityLabels code = []) ∧
    (∀ start, buttonEnd code start = start ∨ buttonEnd code start < code.length) ∧
    (analyzeSwiftCode ([] : List Char)).violations = [] := by
  refine ⟨rfl, ?_, ?_, ?_, ?_, ?_, ?_, ?_, ?_, by decide⟩
  · intro h1 h2
    unfold checkHardcodedFrameSizes
    rw [h1, h2]
    rfl
  · intro h1 h2 h3 h4
    unfold checkHardcodedColors
    rw [h1, h2, h3, h4]
    rfl
  · intro h1
    unfold checkHardcodedFonts
    rw [h1]
    rfl
  · intro h1
    unfold checkForceUnwrapping
    rw [h1]
    rfl
  · intro h1
    unfold checkTouchTargetSizes
    rw [h1]
    rfl
  · intro h1
    unfold checkViewModelStateEnum
    rw [h1]
    rfl
  · intro h1
    unfold checkAccessibilityLabels
    rw [h1]
    rfl
  · intro start
    exact buttonEndGo_bound _ _ _ _

/-- Witness for C2 at concrete inputs whose scans are empty. -/
theorem analyze_never_fails_witness :
    checkHardcodedFonts ([] : List Char) = [] ∧
    checkViewModelStateEnum ([] : List Char) = [] :=
  ⟨(analyze_never_fails []).2.2.2.1 (by decide),
   (analyze_never_fails []).2.2.2.2.2.2.1 (by decide)⟩

/-! ### Helper lemmas for the scan characterization -/

theorem takeWhile_get (p : Char → Bool) : ∀ (l : List Char) (k : Nat),
    k < (l.takeWhile p).length → ∃ c, l.get? k = some c ∧ p c = true := by
  intro l
  induction l with
  | nil => intro k hk; simp at hk
  | cons c t ih =>
    intro k hk
    rw [List.takeWhile_cons] at hk
    by_cases hpc : p c = true
    · rw [if_pos hpc] at hk
      cases k with
      | zero => exact ⟨c, rfl, hpc⟩
      | succ k =>
        simp only [List.length_cons, Nat.succ_lt_succ_iff] at hk
        exact ih k hk
    · rw [if_neg hpc] at hk
      simp at hk

theorem countWhile_get (p : Char → Bool) (s : List Char) (a k : Nat)
    (h : k < countWhile p s a) : ∃ c, s.get? (a + k) = some c ∧ p c = true := by
  obtain ⟨c, hg, hp⟩ := takeWhile_get p (s.drop a) k h
  rw [List.get?_drop] at hg
  exact ⟨c, hg, hp⟩

theorem countWhile_zero {p : Char → Bool} {s : List Char} {a : Nat} {c : Char}
    (h : s.get? a = some c) (hc : p c = false) : countWhile p s a = 0 := by
  unfold countWhile
  cases hdrop : s.drop a with
  | nil => rfl
  | cons c2 rest =>
    have hc2 : c2 = c := by
      have h0 : (s.drop a).get? 0 = s.get? a := by
        rw [List.get?_drop, Nat.add_zero]
      rw [hdrop, h] at h0
      exact Option.some.inj h0
    subst hc2
    rw [List.takeWhile_cons, if_neg (by rw [hc]; exact Bool.false_ne_true)]
    rfl

theorem filterMap_congr' {α β : Type} {f g : α → Option β} :
    ∀ {l : List α}, (∀ a ∈ l, f a = g a) → l.filterMap f = l.filterMap g := by
  intro l
  induction l with
  | nil => intro _; rfl
  | cons a t ih =>
    intro h
    rw [List.filterMap_cons, List.filterMap_cons, h a (List.mem_cons_self a t),
      ih (fun b hb => h b (List.mem_cons_of_mem a hb))]

theorem filter_map_eq_filterMap {α β : Type} (p : α → Bool) (f : α → β) (l : List α) :
    (l.filter p).map f = l.filterMap (fun a => if p a then some (f a) else none) := by
  induction l with
  | nil => rfl
  | cons a t ih =>
    rw [List.filter_cons, List.filterMap_cons]
    by_cases hp : p a = true
    · simp [hp, ih]
    · simp [hp, ih]

theorem filterMap_shift {α : Type} (g : Nat → Option α) (a b n : Nat) (hab : a ≤ b)
    (h1 : ∀ j, a ≤ j → j < b → g j = none)
    (h2 : ∀ j, a + n ≤ j → g j = none) :
    (List.range' a n).filterMap g = (List.range' b n).filterMap g := by
  have e1 : List.range' a (b - a) ++ List.range' b n = List.range' a (n + (b - a)) := by
    have h := List.range'_append a (b - a) n 1
    rw [Nat.one_mul, Nat.add_sub_cancel' hab] at h
    exact h
  have e2 : List.range' a n ++ List.range' (a + n) (b - a) = List.range' a ((b - a) + n) := by
    have h := List.range'_append a n (b - a) 1
    rw [Nat.one_mul] at h
    exact h
  have hnil1 : (List.range' a (b - a)).filterMap g = [] := by
    rw [List.filterMap_eq_nil]
    intro j hj
    rw [List.mem_range'_1] at hj
    exact h1 j hj.1 (by omega)
  have hnil2 : (List.range' (a + n) (b - a)).filterMap g = [] := by
    rw [List.filterMap_eq_nil]
    intro j hj
    rw [List.mem_range'_1] at hj
    exact h2 j hj.1
  calc (List.range' a n).filterMap g
      = (List.range' a n).filterMap g ++ (List.range' (a + n) (b - a)).filterMap g := by
        rw [hnil2, List.append_nil]
    _ = (List.range' a ((b - a) + n)).filterMap g := by rw [← List.filterMap_append, e2]
    _ = (List.range' a (n + (b - a))).filterMap g := by rw [Nat.add_comm]
    _ = (List.range' a (b - a)).filterMap g ++ (List.range' b n).filterMap g := by
        rw [← e1, List.filterMap_append]
    _ = (List.range' b n).filterMap g := by rw [hnil1, List.nil_append]

theorem finditerGo_eq {α : Type} (f : Nat → Option (Nat × α)) (bound : Nat)
    (hA : ∀ i e a, f i = some (e, a) → i < e)
    (hB : ∀ i e a j, f i = some (e, a) → i < j → j < e → f j = none)
    (hC : ∀ i, bound ≤ i → f i = none) :
    ∀ (fuel pos : Nat), bound ≤ fuel + pos →
      finditerGo f fuel pos =
        (List.range' pos fuel).filterMap
          (fun i => (f i).map (fun ea => (i, ea.1, ea.2))) := by
  intro fuel
  induction fuel with
  | zero => intro pos _; rfl
  | succ fuel ih =>
    intro pos h
    have hrange : List.range' pos (fuel + 1) = pos :: List.range' (pos + 1) fuel := rfl
    cases hf : f pos with
    | none =>
      simp only [finditerGo, hf, hrange, List.filterMap_cons, Option.map_none']
      exact ih (pos + 1) (by omega)
    | some ea =>
      obtain ⟨e, a⟩ := ea
      have hlt : pos < e := hA pos e a hf
      simp only [finditerGo, hf, hrange, List.filterMap_cons, Option.map_some', if_pos hlt]
      congr 1
      rw [ih e (by omega)]
      refine (filterMap_shift _ (pos + 1) e fuel (by omega) ?_ ?_).symm
      · intro j hj1 hj2
        rw [hB pos e a j hf (by omega) hj2]
        rfl
      · intro j hj
        rw [hC j (by omega)]
        rfl

theorem finditer_eq {α : Type} (f : Nat → Option (Nat × α)) (len : Nat)
    (hA : ∀ i e a, f i = some (e, a) → i < e)
    (hB : ∀ i e a j, f i = some (e, a) → i < j → j < e → f j = none)
    (hC : ∀ i, len ≤ i → f i = none) :
    finditer f len =
      (List.range (len + 1)).filterMap
        (fun i => (f i).map (fun ea => (i, ea.1, ea.2))) := by
  rw [finditer, finditerGo_eq f len hA hB hC (len + 1) 0 (by omega), List.range_eq_range']

/-! ### Helper lemmas on the force-unwrap matcher -/

theorem matchForce_none_of_ge {s : List Char} {i : Nat} (h : s.length ≤ i) :
    matchForce s i = none := by
  simp only [matchForce, List.get?_eq_none.2 h]
  rfl

theorem matchForce_lt {s : List Char} {i e : Nat} {a : Unit}
    (h : matchForce s i = some (e, a)) : i < e := by
  simp only [matchForce] at h
  split at h
  · split at h
    · split at h
      · injection h with h2
        injection h2 with he _
        omega
      · cases h
    · injection h with h2
      injection h2 with he _
      omega
  · cases h

theorem matchForce_interior {s : List Char} {i e : Nat} {a : Unit}
    (h : matchForce s i = some (e, a))
    (j : Nat) (h1 : i < j) (h2 : j < e) : matchForce s j = none := by
  have key : ∀ (jj : Nat), i + 1 ≤ jj → jj < i + 1 + countWhile isSpaceC s (i + 1) →
      matchForce s jj = none := by
    intro jj hjj1 hjj2
    obtain ⟨c, hc, hcs⟩ := countWhile_get isSpaceC s (i + 1) (jj - (i + 1)) (by omega)
    rw [(by omega : i + 1 + (jj - (i + 1)) = jj)] at hc
    have hcne : (some c == some '!') = false := by
      rw [beq_eq_false_iff_ne]
      intro hceq
      have : c = '!' := Option.some.inj hceq
      subst this
      exact absurd hcs (by decide)
    simp only [matchForce, hc, hcne, Bool.false_and]
    rfl
  simp only [matchForce] at h
  split at h
  · split at h
    · split at h
      · injection h with h2
        injection h2 with he _
        exact key j (by omega) (by omega)
      · cases h
    · injection h with h2
      injection h2 with he _
      exact key j (by omega) (by omega)
  · cases h

theorem matchForce_isSome_iff (s : List Char) (i : Nat) :
    (matchForce s i).isSome = forcedUnwrapSite s i := by
  simp only [matchForce, forcedUnwrapSite]
  by_cases h1 : (s.get? i == some '!' && !(decide (3 ≤ i) && litAt s tryLit (i - 3))) = true
  · rw [if_pos h1, h1, Bool.true_and]
    by_cases h2 : (s.get? (i + 1) == some '=') = true
    · have hz : countWhile isSpaceC s (i + 1) = 0 :=
        countWhile_zero (beq_iff_eq.1 h2) (by decide)
      rw [hz, Nat.add_zero, if_pos h2, if_neg (Nat.lt_irrefl 0), h2]
      rfl
    · have h2f : (s.get? (i + 1) == some '=') = false := by
        cases hx : (s.get? (i + 1) == some '=')
        · rfl
        · exact absurd hx h2
      rw [h2f]
      by_cases h3 : (s.get? (i + 1 + countWhile isSpaceC s (i + 1)) == some '=') = true
      · have hw : 0 < countWhile isSpaceC s (i + 1) := by
          rcases Nat.eq_zero_or_pos (countWhile isSpaceC s (i + 1)) with hz | hp
          · rw [hz, Nat.add_zero] at h3
            rw [h3] at h2f
            cases h2f
          · exact hp
        rw [if_pos h3, if_pos hw]
        rfl
      · rw [if_neg h3]
        rfl
  · have h1f : (s.get? i == some '!' && !(decide (3 ≤ i) && litAt s tryLit (i - 3))) = false := by
      cases hx : (s.get? i == some '!' && !(decide (3 ≤ i) && litAt s tryLit (i - 3)))
      · rfl
      · exact absurd hx h1
    rw [if_neg h1, h1f, Bool.false_and]
    rfl

/-- C3: the force-unwrap check reports exactly one error per offset that
carries the forced-unwrap operator, is not immediately preceded by the
forced-try token, is not immediately followed by an equality sign, and is not
preceded on its own line by a line-comment marker; in particular the comment
line yields none, the code-then-comment line yields exactly one, the
inequality yields none, and the bare unwrap yields exactly one. -/
theorem force_unwrapping_sites (code : List Char) :
    checkForceUnwrapping code =
      ((List.range code.length).filter
        (fun i => forcedUnwrapSite code i && !suppressedByCmnt code i)).map
        (fun i => forceViol code i) ∧
    checkForceUnwrapping exCommentBang = [] ∧
    checkForceUnwrapping exBangComment = [forceViol exBangComment 3] ∧
    checkForceUnwrapping exNotEqual = [] ∧
    checkForceUnwrapping exBang = [forceViol exBang 1] := by
  refine ⟨?_, by decide, by decide, by decide, by decide⟩
  have hA : ∀ (i e : Nat) (a : Unit), matchForce code i = some (e, a) → i < e :=
    fun i e a h => matchForce_lt h
  have hB : ∀ (i e : Nat) (a : Unit) (j : Nat), matchForce code i = some (e, a) →
      i < j → j < e → matchForce code j = none :=
    fun i e a j h h1 h2 => matchForce_interior h j h1 h2
  have hC : ∀ i, code.length ≤ i → matchForce code i = none :=
    fun i h => matchForce_none_of_ge h
  simp only [checkForceUnwrapping, forceMatches]
  rw [finditer_eq (matchForce code) code.length hA hB hC,
    List.filterMap_filterMap, filter_map_eq_filterMap,
    List.range_succ, List.filterMap_append]
  have hlast : List.filterMap
      (fun i => ((matchForce code i).map (fun ea => (i, ea.1, ea.2))).bind
        (fun m => if suppressedByCmnt code m.1 then none else some (forceViol code m.1)))
      [code.length] = [] := by
    simp [hC code.length le_rfl]
  rw [hlast, List.append_nil]
  apply filterMap_congr'
  intro i _
  cases hf : matchForce code i with
  | none =>
    have hsite : forcedUnwrapSite code i = false := by
      rw [← matchForce_isSome_iff, hf]
      rfl
    simp [hsite, hf]
  | some ea =>
    have hsite : forcedUnwrapSite code i = true := by
      rw [← matchForce_isSome_iff, hf]
      rfl
    cases hs : suppressedByCmnt code i
    · simp [hsite, hs, hf]
    · simp [hsite, hs, hf]

/-- C9: every occurrence of the UIColor red-component constructor is also an
occurrence of the Color red-component sub-pattern two characters later, with
the same match end and the same line number, so the analyzer reports two
hardcoded colour warnings for it; on the concrete example the full analysis
yields exactly two hardcoded colour warnings on the same line. -/
theorem uicolor_double_match (code : List Char) (i e : Nat)
    (h : matchColorNum uiColorRedLit code i = some (e, ())) :
    matchColorNum colorRedLit code (i + 2) = some (e, ()) ∧
    lineNum code (i + 2) = lineNum code i ∧
    (analyzeSwiftCode exUIColor).violations.map (fun v => (v.rule, v.line)) =
      [("hardcoded_color", some 1), ("hardcoded_color", some 1)] := by
  have hui : uiColorRedLit = 'U' :: 'I' :: colorRedLit := by decide
  have hcl0 : litAt code uiColorRedLit i = true := by
    by_contra hx
    have hxf : litAt code uiColorRedLit i = false := by
      cases hcv : litAt code uiColorRedLit i
      · rfl
      · exact absurd hcv hx
    simp only [matchColorNum, hxf] at h
    rw [if_neg Bool.false_ne_true] at h
    exact Option.noConfusion h
  have hcl0' : uiColorRedLit.isPrefixOf (code.drop i) = true := hcl0
  obtain ⟨t, ht⟩ := List.isPrefixOf_iff_prefix.1 hcl0'
  have hdrop2 : code.drop (i + 2) = colorRedLit ++ t := by
    rw [← List.drop_drop, ← ht, hui]
    rfl
  have hcl2 : litAt code colorRedLit (i + 2) = true := by
    have : colorRedLit.isPrefixOf (code.drop (i + 2)) = true := by
      rw [hdrop2]
      exact List.isPrefixOf_iff_prefix.2 ⟨t, rfl⟩
    exact this
  have l1 : colorRedLit.length = 10 := by decide
  have l2 : uiColorRedLit.length = 12 := by decide
  have heq : matchColorNum colorRedLit code (i + 2) = matchColorNum uiColorRedLit code i := by
    simp only [matchColorNum]
    rw [if_pos hcl2, if_pos hcl0, l1, l2, (by omega : i + 2 + 10 = i + 12)]
  have hU : code.get? i = some 'U' := by
    have h0 : (code.drop i).get? 0 = code.get? i := by
      rw [List.get?_drop, Nat.add_zero]
    rw [← ht, hui] at h0
    exact h0.symm
  have hI : code.get? (i + 1) = some 'I' := by
    have h0 : (code.drop i).get? 1 = code.get? (i + 1) := by
      rw [List.get?_drop]
    rw [← ht, hui] at h0
    exact h0.symm
  have hU' : code[i]? = some 'U' := by rw [← List.get?_eq_getElem?]; exact hU
  have hI' : code[i + 1]? = some 'I' := by rw [← List.get?_eq_getElem?]; exact hI
  have hline : lineNum code (i + 2) = lineNum code i := by
    unfold lineNum
    congr 1
    have e1 : i + 2 = (i + 1) + 1 := by omega
    have cU : (('U' : Char) == '\n') = false := by decide
    have cI : (('I' : Char) == '\n') = false := by decide
    rw [e1, List.take_succ, List.take_succ, hU', hI']
    simp [List.countP_append, List.countP_cons, cU, cI]
  exact ⟨heq ▸ h, hline, by decide⟩

/-- Witness for C9 at the concrete example occurrence. -/
theorem uicolor_double_match_witness :
    matchColorNum colorRedLit exUIColor 10 = some (24, ()) ∧
    lineNum exUIColor 10 = lineNum exUIColor 8 :=
  ⟨(uicolor_double_match exUIColor 8 24 (by decide)).1,
   (uicolor_double_match exUIColor 8 24 (by decide)).2.1⟩
